import Mathlib

/-!
Verification development for the `file_manager` crate (src/src/lib.rs).

Shallow embedding conventions:
* Rust strings are modelled as `List Char` (`Str`); all inputs of interest are
  ASCII, so byte indices and char indices coincide.
* Filesystem state is passed explicitly: a directory's eligible `.map` file
  listing (the result of `get_file_list`) becomes a `List Str` parameter, and
  the menu-level functions take an `Fs` record of listings and existence tests.
* A Rust panic (integer underflow followed by an out-of-range slice) is
  modelled by an `Option` result: `none` means the original code panics.
* The interactive line reader is modelled by a script, a `List InEvent`;
  reading past the end of the script (`none`) means the program is still
  blocked waiting for input.
-/

abbrev Str := List Char

-- ----------------------------------------------------------------
-- Character and digit helpers
-- ----------------------------------------------------------------

/-- ASCII decimal digit test, as used by Rust's `u16`/`usize` `parse`. -/
def isDig (c : Char) : Bool := decide (48 ≤ c.toNat ∧ c.toNat ≤ 57)

/-- Value of an ASCII digit. -/
def digVal (c : Char) : Nat := c.toNat - 48

/-- ASCII digit character of a value below 10. -/
def digChar (k : Nat) : Char := Char.ofNat (48 + k)

/-- ASCII whitespace test modelling `char::is_whitespace` on the inputs used here. -/
def isWs (c : Char) : Bool := c = ' ' ∨ c = '\t' ∨ c = '\n' ∨ c = '\r'

/-- Model of Rust's `str::trim`. -/
def trim (s : Str) : Str := ((s.dropWhile isWs).reverse.dropWhile isWs).reverse

-- ----------------------------------------------------------------
-- Splitting, as done by Rust's `str::split`, `split_once`, `rsplit_once`
-- ----------------------------------------------------------------

/-- Model of Rust's `s.split(c)`: the (always nonempty) list of fragments. -/
def splitOnChar (c : Char) : Str → List Str
  | [] => [[]]
  | x :: xs =>
    if x = c then [] :: splitOnChar c xs
    else
      match splitOnChar c xs with
      | [] => [[x]]
      | s :: ss => (x :: s) :: ss

/-- Model of Rust's `s.split_once(c)`: split at the first occurrence. -/
def splitOnce (c : Char) : Str → Option (Str × Str)
  | [] => none
  | x :: xs =>
    if x = c then some ([], xs)
    else (splitOnce c xs).map (fun p => (x :: p.1, p.2))

/-- Model of Rust's `s.rsplit_once(c)`: split at the last occurrence. -/
def rsplitOnce (c : Char) (s : Str) : Option (Str × Str) :=
  match splitOnce c s.reverse with
  | some (f, d) => some (d.reverse, f.reverse)
  | none => none

/-- Last element of a fragment list with a fallback, as `Iterator::last` with
`unwrap_or_default`. -/
def lastOr (l : List Str) (d : Str) : Str :=
  match l with
  | [] => d
  | [x] => x
  | _ :: y :: ys => lastOr (y :: ys) d

-- ----------------------------------------------------------------
-- Decimal parsing and formatting
-- ----------------------------------------------------------------

/-- Accumulated decimal value of a digit string. -/
def strVal (s : Str) : Nat := s.foldl (fun a c => a * 10 + digVal c) 0

/-- Parses a nonempty all-digit string; `none` otherwise. -/
def parseDigits (s : Str) : Option Nat :=
  if s = [] then none
  else if s.all isDig then some (strVal s) else none

/-- Strips one leading plus sign, as Rust's integer `FromStr` accepts. -/
def stripPlus (s : Str) : Str :=
  match s with
  | c :: r => if c = '+' then r else s
  | [] => s

/-- Model of Rust's `str::parse::<u16>`. -/
def parseU16 (s : Str) : Option Nat :=
  match parseDigits (stripPlus s) with
  | some n => if n ≤ 65535 then some n else none
  | none => none

/-- Model of Rust's `str::parse::<usize>` on a 64-bit target. -/
def parseUsize (s : Str) : Option Nat :=
  match parseDigits (stripPlus s) with
  | some n => if n ≤ 18446744073709551615 then some n else none
  | none => none

/-- Decimal digit string of a natural number (fuel-based so that it is
structural; the fuel 64 covers every number below 10^64, far beyond `u16` and
`usize`). -/
def natDigitsF : Nat → Nat → Str
  | 0, n => [digChar n]
  | f + 1, n => if n < 10 then [digChar n] else natDigitsF f (n / 10) ++ [digChar (n % 10)]

/-- Decimal representation, as Rust's `Display` for unsigned integers. -/
def natDigits (n : Nat) : Str := natDigitsF 64 n

-- ----------------------------------------------------------------
-- Crate-level constants (src/src/lib.rs lines 23-32)
-- ----------------------------------------------------------------

def DEFAULT_MAP_TYPE : Str := ['m', 'a', 'p']

def SEQUENTIAL_FILE_PADDING_LEN : Nat := 3

def SEQUENTIAL_NAMING_CHAR : Char := '_'

def SEQUENTIAL_FILE_MAX_NUMBER : Nat := 999

def MAX_FILE_NAME_CHARS : Nat := 30

/-- Length subtracted from a file name to strip `NNN.map`: extension length
plus one (the dot) plus the padding width. -/
def stripLen : Nat := DEFAULT_MAP_TYPE.length + 1 + SEQUENTIAL_FILE_PADDING_LEN

/-- Zero-padding to width 3, as the `{:0>3}` format used by
`get_sequential_name_from_count`. -/
def pad3 (n : Nat) : Str := List.replicate (3 - (natDigits n).length) '0' ++ natDigits n

-- ----------------------------------------------------------------
-- Error kinds (the `Error` enum) and results
-- ----------------------------------------------------------------

inductive FmError where
  | IoFault
  | CmdFault
  | ManuallyTerminated
  | NeedNewName
  | FileDeletion
  | InvalidNameTooLong
  | InvalidSequentialName
  | UnknownFileType
deriving DecidableEq

/-- Model of the crate's `Result<T>` (`Result<T, Error>`). -/
inductive FmRes (α : Type) where
  | ok (a : α)
  | error (e : FmError)
deriving DecidableEq

-- ----------------------------------------------------------------
-- Sequential Name Engine (src/src/lib.rs lines 170-221)
-- ----------------------------------------------------------------

/-- Model of `get_sequential_name_from_count`: `format!("{}{:0>3}.{}", base_name, cnt, "map")`. -/
def get_sequential_name_from_count (base_name : Str) (cnt : Nat) : Str :=
  base_name ++ pad3 cnt ++ '.' :: DEFAULT_MAP_TYPE

/-- Counter parsed from one file name inside `get_sequential_name`'s loop:
`name.split('_').last().unwrap_or_default().split('.').next().unwrap_or_default().parse::<u16>()`. -/
def seqCntOf (name : Str) : Option Nat :=
  parseU16 (List.headD (splitOnChar '.' (lastOr (splitOnChar '_' name) [])) [])

/-- One iteration of `get_sequential_name`'s loop body over the `(found, cnt_max)` pair. -/
def scanStep (p : Bool × Nat) (name : Str) : Bool × Nat :=
  match seqCntOf name with
  | some cnt => (true, if p.2 < cnt then cnt else p.2)
  | none => p

/-- The `(found, cnt_max)` state after scanning the entries whose prefix of
length `len - stripLen` equals `base_name`. -/
def matchScan (files : List Str) (base_name : Str) : Bool × Nat :=
  (files.filter (fun e => decide (e.take (e.length - stripLen) = base_name))).foldl
    scanStep (false, 0)

/-- Model of `get_sequential_name` with the directory's eligible-file listing
passed explicitly.  The filter computes `entry.len() - stripLen` on `usize`,
which underflows (and the subsequent slice is out of range) whenever an entry
is shorter than `stripLen` characters; that Rust panic is modelled by `none`.
The scanned maximum and `cnt_max += 1` live on `u16`: every parsed counter is
at most 65535, and the increment wraps modulo 2^16, so a scanned maximum of
65535 wraps to 0 (release semantics; under debug assertions that increment
panics instead). -/
def get_sequential_name (files : List Str) (base_name : Str) (next : Bool) :
    Option (FmRes Str) :=
  if ∃ e ∈ files, e.length < stripLen then none
  else
    let fc := matchScan files base_name
    let cntMax := if next && fc.1 then (fc.2 + 1) % 65536 else fc.2
    if cntMax ≤ SEQUENTIAL_FILE_MAX_NUMBER then
      some (FmRes.ok (get_sequential_name_from_count base_name cntMax))
    else some (FmRes.error FmError.InvalidSequentialName)

/-- Model of `is_sequential_name` (the spec's `collapse`).  When the stem
before the first dot has a final `_`-separated segment of exactly
`SEQUENTIAL_FILE_PADDING_LEN` characters that parses as a `u16`, the code
computes `file_name.len() - stripLen` on `usize` and slices; for names shorter
than `stripLen` this underflows and the slice panics, modelled by `none`. -/
def is_sequential_name (file_name : Str) : Option Str :=
  let base_name := ((splitOnce '.' file_name).getD ([], [])).1
  let cnt := lastOr (splitOnChar '_' base_name) []
  if cnt.length = SEQUENTIAL_FILE_PADDING_LEN ∧ (parseU16 cnt).isSome = true then
    if file_name.length < stripLen then none
    else some (file_name.take (file_name.length - stripLen))
  else some file_name

-- ----------------------------------------------------------------
-- Path/Name Parser (src/src/lib.rs lines 394-448)
-- ----------------------------------------------------------------

/-- Model of `check_if_path_or_file`. -/
def check_if_path_or_file (line : Str) : Option Str × Option Str :=
  if line = [] then (none, none)
  else if line.getLast? = some '/' then (some line, none)
  else
    match rsplitOnce '/' line with
    | some (d, f) => (some (d ++ ['/']), some f)
    | none => (none, some line)

/-- Normalization a default-directory entry gets when selected by number:
a trailing `/` is appended unless already present. -/
def ensureSlash (d : Str) : Str :=
  if d.getLast? = some '/' then d else d ++ ['/']

/-- Model of `parse_menu_file`.  The outer `Option` is the panic monad: the
file branch passes the selected entry through `is_sequential_name`, which can
panic on very short names. -/
def parse_menu_file (current_path line : Str) (dirs sub_paths files : List Str) :
    Option (Option Str × Option Str) :=
  if line = [] then some (none, none)
  else
    match parseUsize line with
    | some num =>
      if num < dirs.length then
        some (some (ensureSlash (dirs.getD num [])), none)
      else if num - dirs.length < sub_paths.length then
        some (some (current_path ++ sub_paths.getD (num - dirs.length) []), none)
      else if num - dirs.length - sub_paths.length < files.length then
        match is_sequential_name (files.getD (num - dirs.length - sub_paths.length) []) with
        | none => none
        | some f => some (none, some f)
      else some (none, none)
    | none => some (check_if_path_or_file line)

/-- Input-line normalization done by `file_name_menu` before parsing:
`line.split(' ').filter(|s| !s.is_empty()).join("_")`. -/
def normalizeLine (line : Str) : Str :=
  List.intercalate ['_'] ((splitOnChar ' ' line).filter (fun s => !s.isEmpty))

-- ----------------------------------------------------------------
-- Interaction script and filesystem model
-- ----------------------------------------------------------------

/-- One outcome of a blocking `readline` call: a line of text, CTRL+C
(`ReadlineError::Interrupted`), CTRL+D (`ReadlineError::Eof`), or another
lower-level read fault. -/
inductive InEvent where
  | line (s : Str)
  | ctrlC
  | ctrlD
  | fault
deriving DecidableEq

/-- A filesystem mutation performed by the menu. -/
inductive FsAction where
  | deleteFile (p : Str)
  | renameFile (src dst : Str)
  | makeDir (p : Str)
deriving DecidableEq

/-- Filesystem state as seen by the menu: the set of existing directories,
and per directory the eligible-file listing (`get_file_list`), the
sub-directory listing (`get_dir_list`) and a file-existence test. -/
structure Fs where
  dirs : List Str
  filesIn : Str → List Str
  subdirsIn : Str → List Str
  fileExists : Str → Str → Bool

/-- Model of `check_dir_exists`. -/
def check_dir_exists (fs : Fs) (path : Str) : Bool := fs.dirs.contains path

/-- Effect of an `FsAction` on the modelled state.  Only directory creation is
replayed: the file deletion and rename actions are emitted by dialog branches
after which the menu returns immediately, so no later listing observes them. -/
def applyAct (fs : Fs) (a : FsAction) : Fs :=
  match a with
  | FsAction.makeDir p => Fs.mk (p :: fs.dirs) fs.filesIn fs.subdirsIn fs.fileExists
  | _ => fs

-- ----------------------------------------------------------------
-- Confirmation Prompt (src/src/lib.rs lines 356-385)
-- ----------------------------------------------------------------

/-- Model of `ask_yes_no` over an input script; the second component is the
unconsumed remainder of the script. -/
def ask_yes_no : List InEvent → Option (FmRes Unit × List InEvent)
  | [] => none
  | InEvent.line l :: rest =>
    let t := trim l
    if t = ['y'] ∨ t = ['y', 'e', 's'] then some (FmRes.ok (), rest)
    else if t = ['n'] ∨ t = ['n', 'o'] then some (FmRes.error FmError.NeedNewName, rest)
    else ask_yes_no rest
  | InEvent.ctrlC :: rest => some (FmRes.error FmError.NeedNewName, rest)
  | InEvent.ctrlD :: rest => some (FmRes.error FmError.ManuallyTerminated, rest)
  | InEvent.fault :: rest => some (FmRes.error FmError.NeedNewName, rest)

-- ----------------------------------------------------------------
-- Collision Resolver (src/src/lib.rs lines 277-344)
-- ----------------------------------------------------------------

/-- Model of the five-option loop inside `check_file_exists`.  `dirFiles` is
the eligible-file listing of `path`, consumed by the sequential-name engine in
the `m` and `c` branches.  An unmatched input or a lower-level read fault
prints a notice and loops. -/
def collisionDialog (path name : Str) (dirFiles : List Str) :
    List InEvent → Option (FmRes Str × List FsAction × List InEvent)
  | [] => none
  | InEvent.line l :: rest =>
    let t := trim l
    if t = ['r'] then some (FmRes.ok name, [FsAction.deleteFile (path ++ name)], rest)
    else if t = ['m'] then
      match splitOnce '.' name with
      | none => some (FmRes.error FmError.UnknownFileType, [], rest)
      | some (s, _) =>
        match get_sequential_name dirFiles (s ++ [SEQUENTIAL_NAMING_CHAR]) true with
        | none => none
        | some (FmRes.error e) => some (FmRes.error e, [], rest)
        | some (FmRes.ok newName) =>
          some (FmRes.ok name, [FsAction.renameFile (path ++ name) (path ++ newName)], rest)
    else if t = ['c'] then
      match splitOnce '.' name with
      | none => some (FmRes.error FmError.UnknownFileType, [], rest)
      | some (s, _) =>
        match get_sequential_name dirFiles (s ++ [SEQUENTIAL_NAMING_CHAR]) true with
        | none => none
        | some (FmRes.error e) => some (FmRes.error e, [], rest)
        | some (FmRes.ok newName) => some (FmRes.ok newName, [], rest)
    else if t = ['n'] then some (FmRes.error FmError.NeedNewName, [], rest)
    else if t = ['d'] then
      some (FmRes.error FmError.FileDeletion, [FsAction.deleteFile (path ++ name)], rest)
    else collisionDialog path name dirFiles rest
  | InEvent.ctrlC :: rest => some (FmRes.error FmError.NeedNewName, [], rest)
  | InEvent.ctrlD :: rest => some (FmRes.error FmError.ManuallyTerminated, [], rest)
  | InEvent.fault :: rest => collisionDialog path name dirFiles rest

/-- Model of `check_file_exists`: the collision dialog runs only when the
target exists and the operation is a save; a missing target while loading
yields `NeedNewName` immediately; otherwise the name is returned unchanged. -/
def check_file_exists (path name : Str) (is_saving : Bool) (targetIsFile : Bool)
    (dirFiles : List Str) (script : List InEvent) :
    Option (FmRes Str × List FsAction × List InEvent) :=
  if targetIsFile && is_saving then collisionDialog path name dirFiles script
  else if !targetIsFile && !is_saving then
    some (FmRes.error FmError.NeedNewName, [], script)
  else some (FmRes.ok name, [], script)

-- ----------------------------------------------------------------
-- Menu State Machine (src/src/lib.rs lines 458-587)
-- ----------------------------------------------------------------

/-- Session state of `file_name_menu`: the filesystem view, the current
directory, the configured default directories and the pending seed text
(`init_s`). -/
structure MState where
  fs : Fs
  current : Str
  paths : List Str
  seed : Str

/-- Outcome of processing one read line: either the menu returns, or it
re-prompts with a possibly new current directory and seed (`dirChanged` tells
whether the outer directory loop is re-entered).  Both outcomes carry the
filesystem actions performed while processing the line. -/
inductive StepOut where
  | ret (r : FmRes Str) (acts : List FsAction)
  | reprompt (newPath seed : Str) (dirChanged : Bool) (acts : List FsAction)

/-- Filesystem actions carried by a step outcome. -/
def stepActs : StepOut → List FsAction
  | StepOut.ret _ a => a
  | StepOut.reprompt _ _ _ a => a

/-- Name-length check and collision handling (src/src/lib.rs lines 552-568). -/
def menuNamePart (st : MState) (saving : Bool) (f : Str) (acts0 : List FsAction)
    (rest : List InEvent) : Option (StepOut × List InEvent) :=
  if MAX_FILE_NAME_CHARS < f.length then
    some (StepOut.ret (FmRes.error FmError.InvalidNameTooLong) acts0, rest)
  else
    match check_file_exists st.current f saving (st.fs.fileExists st.current f)
        (st.fs.filesIn st.current) rest with
    | none => none
    | some (FmRes.ok s, acts2, rest') =>
      some (StepOut.ret (FmRes.ok (st.current ++ s)) (acts0 ++ acts2), rest')
    | some (FmRes.error FmError.NeedNewName, acts2, rest') =>
      some (StepOut.reprompt st.current [] true (acts0 ++ acts2), rest')
    | some (FmRes.error e, acts2, rest') =>
      some (StepOut.ret (FmRes.error e) (acts0 ++ acts2), rest')

/-- Handling of a parsed file fragment (src/src/lib.rs lines 527-569):
sequential expansion when the name ends in the naming character, extension
check with seed correction, then length and collision checks.  With no file
fragment the seed is cleared and the directory loop re-entered (the code
reaches this point only with `path_updated` true). -/
def menuFilePart (st : MState) (saving : Bool) (fileOpt : Option Str)
    (acts0 : List FsAction) (rest : List InEvent) : Option (StepOut × List InEvent) :=
  match fileOpt with
  | none => some (StepOut.reprompt st.current [] true acts0, rest)
  | some f0 =>
    let fRes : Option (FmRes Str) :=
      if f0.getLast? = some SEQUENTIAL_NAMING_CHAR then
        get_sequential_name (st.fs.filesIn st.current) f0 saving
      else some (FmRes.ok f0)
    match fRes with
    | none => none
    | some (FmRes.error e) => some (StepOut.ret (FmRes.error e) acts0, rest)
    | some (FmRes.ok f1) =>
      match splitOnce '.' f1 with
      | some (s, ext) =>
        if ext = DEFAULT_MAP_TYPE then menuNamePart st saving f1 acts0 rest
        else some (StepOut.reprompt st.current (s ++ '.' :: DEFAULT_MAP_TYPE) true acts0, rest)
      | none => menuNamePart st saving (f1 ++ '.' :: DEFAULT_MAP_TYPE) acts0 rest

/-- Processing of one successfully read line of `file_name_menu`'s inner loop
(src/src/lib.rs lines 484-574): normalization, parsing, directory-existence
handling with the optional create-directory confirmation, then the file part. -/
def menuStep (st : MState) (saving : Bool) (rawLine : Str) (rest : List InEvent) :
    Option (StepOut × List InEvent) :=
  match parse_menu_file st.current (normalizeLine rawLine) st.paths
      (st.fs.subdirsIn st.current) (st.fs.filesIn st.current) with
  | none => none
  | some (pathOpt, fileOpt) =>
    let path := pathOpt.getD st.current
    if check_dir_exists st.fs path then
      menuFilePart (MState.mk st.fs path st.paths st.seed) saving fileOpt [] rest
    else if saving then
      match ask_yes_no rest with
      | none => none
      | some (FmRes.ok _, rest') =>
        menuFilePart
          (MState.mk (applyAct st.fs (FsAction.makeDir path)) path st.paths st.seed)
          saving fileOpt [FsAction.makeDir path] rest'
      | some (FmRes.error FmError.NeedNewName, rest') =>
        some (StepOut.reprompt st.current st.seed false [], rest')
      | some (FmRes.error e, rest') => some (StepOut.ret (FmRes.error e) [], rest')
    else
      some (StepOut.reprompt st.current st.seed false [], rest)

/-- Fuel-bounded model of `file_name_menu`'s nested loops: consumes the input
script, accumulating the filesystem actions performed; `none` means the
session is still waiting for input (or out of fuel). -/
def runMenu (saving : Bool) : Nat → MState → List InEvent →
    Option (FmRes Str × List FsAction)
  | 0, _, _ => none
  | Nat.succ fuel, st, script =>
    match script with
    | [] => none
    | InEvent.ctrlC :: rest =>
      runMenu saving fuel (MState.mk st.fs st.current st.paths []) rest
    | InEvent.ctrlD :: _ => some (FmRes.error FmError.ManuallyTerminated, [])
    | InEvent.fault :: rest => runMenu saving fuel st rest
    | InEvent.line l :: rest =>
      match menuStep st saving l rest with
      | none => none
      | some (StepOut.ret r acts, _) => some (r, acts)
      | some (StepOut.reprompt p seed _ acts, rest') =>
        match runMenu saving fuel
            (MState.mk (acts.foldl applyAct st.fs) p st.paths seed) rest' with
        | none => none
        | some (r, acts2) => some (r, acts ++ acts2)

-- ----------------------------------------------------------------
-- Helper lemmas: digits
-- ----------------------------------------------------------------

theorem isDig_iff {c : Char} : isDig c = true ↔ 48 ≤ c.toNat ∧ c.toNat ≤ 57 := by
  simp [isDig]

theorem isDig_ne_dot {c : Char} (h : isDig c = true) : c ≠ '.' := by
  intro he; subst he; exact absurd h (by decide)

theorem isDig_ne_us {c : Char} (h : isDig c = true) : c ≠ '_' := by
  intro he; subst he; exact absurd h (by decide)

theorem isDig_ne_plus {c : Char} (h : isDig c = true) : c ≠ '+' := by
  intro he; subst he; exact absurd h (by decide)

theorem digVal_le (c : Char) (h : isDig c = true) : digVal c ≤ 9 := by
  rcases isDig_iff.mp h with ⟨h1, h2⟩
  simp only [digVal]
  omega

theorem isDig_digChar {k : Nat} (h : k < 10) : isDig (digChar k) = true := by
  interval_cases k <;> decide

theorem digVal_digChar {k : Nat} (h : k < 10) : digVal (digChar k) = k := by
  interval_cases k <;> decide

-- ----------------------------------------------------------------
-- Helper lemmas: splitting
-- ----------------------------------------------------------------

theorem splitOnChar_ne_nil (c : Char) (s : Str) : splitOnChar c s ≠ [] := by
  induction s with
  | nil => simp [splitOnChar]
  | cons x xs ih =>
    simp only [splitOnChar]
    by_cases hx : x = c
    · simp [hx]
    · simp only [if_neg hx]
      cases h : splitOnChar c xs <;> simp

theorem splitOnChar_no_mem {c : Char} {s : Str} (h : ∀ a ∈ s, a ≠ c) :
    splitOnChar c s = [s] := by
  induction s with
  | nil => rfl
  | cons x xs ih =>
    have hx : x ≠ c := h x (List.mem_cons_self x xs)
    simp only [splitOnChar, if_neg hx]
    rw [ih (fun a ha => h a (List.mem_cons_of_mem x ha))]

theorem splitOnChar_append {c : Char} {xs : Str} (ys : Str) (h : ∀ a ∈ xs, a ≠ c) :
    splitOnChar c (xs ++ c :: ys) = xs :: splitOnChar c ys := by
  induction xs with
  | nil => simp [splitOnChar]
  | cons a as ih =>
    have ha : a ≠ c := h a (List.mem_cons_self a as)
    simp only [List.cons_append, splitOnChar, if_neg ha, List.append_eq]
    rw [ih (fun b hb => h b (List.mem_cons_of_mem a hb))]

theorem splitOnChar_len_two {c : Char} {s : Str} (h : c ∈ s) :
    2 ≤ (splitOnChar c s).length := by
  induction s with
  | nil => cases h
  | cons x xs ih =>
    simp only [splitOnChar]
    by_cases hx : x = c
    · simp only [if_pos hx, List.length_cons]
      have := List.length_pos.mpr (splitOnChar_ne_nil c xs)
      omega
    · have hc : c ∈ xs := by
        rcases List.mem_cons.mp h with h1 | h1
        · exact absurd h1.symm hx
        · exact h1
      simp only [if_neg hx]
      cases he : splitOnChar c xs with
      | nil => exact absurd he (splitOnChar_ne_nil c xs)
      | cons y ys =>
        have := ih hc
        rw [he] at this
        simpa using this

theorem lastOr_cons_of_ne_nil {l : List Str} (a d : Str) (h : l ≠ []) :
    lastOr (a :: l) d = lastOr l d := by
  cases l with
  | nil => exact absurd rfl h
  | cons y ys => rfl

theorem lastOr_split_append {c : Char} (xs ys : Str) (d : Str) :
    lastOr (splitOnChar c (xs ++ c :: ys)) d = lastOr (splitOnChar c ys) d := by
  induction xs with
  | nil =>
    simp only [List.nil_append, splitOnChar, if_pos rfl]
    exact lastOr_cons_of_ne_nil [] d (splitOnChar_ne_nil c ys)
  | cons a as ih =>
    by_cases ha : a = c
    · have h1 : splitOnChar c ((a :: as) ++ c :: ys)
          = [] :: splitOnChar c (as ++ c :: ys) := by
        simp only [List.cons_append, splitOnChar, if_pos ha, List.append_eq]
      rw [h1, lastOr_cons_of_ne_nil [] d (splitOnChar_ne_nil c (as ++ c :: ys))]
      exact ih
    · have hmem : c ∈ as ++ c :: ys := List.mem_append_right as (List.mem_cons_self c ys)
      cases he : splitOnChar c (as ++ c :: ys) with
      | nil => exact absurd he (splitOnChar_ne_nil c (as ++ c :: ys))
      | cons y yss =>
        have hlen := splitOnChar_len_two hmem
        rw [he] at hlen
        have hne : yss ≠ [] := by
          cases yss with
          | nil => simp at hlen
          | cons _ _ => simp
        have h1 : splitOnChar c ((a :: as) ++ c :: ys) = (a :: y) :: yss := by
          simp only [List.cons_append, splitOnChar, if_neg ha, List.append_eq]
          rw [he]
        rw [h1, lastOr_cons_of_ne_nil _ d hne]
        have h2 := ih
        rw [he, lastOr_cons_of_ne_nil y d hne] at h2
        exact h2

theorem splitOnce_not_mem {c : Char} {s : Str} (h : ∀ a ∈ s, a ≠ c) :
    splitOnce c s = none := by
  induction s with
  | nil => rfl
  | cons x xs ih =>
    have hx : x ≠ c := h x (List.mem_cons_self x xs)
    simp only [splitOnce, if_neg hx]
    rw [ih (fun a ha => h a (List.mem_cons_of_mem x ha))]
    rfl

theorem splitOnce_append {c : Char} {xs : Str} (ys : Str) (h : ∀ a ∈ xs, a ≠ c) :
    splitOnce c (xs ++ c :: ys) = some (xs, ys) := by
  induction xs with
  | nil => simp [splitOnce]
  | cons a as ih =>
    have ha : a ≠ c := h a (List.mem_cons_self a as)
    simp only [List.cons_append, splitOnce, if_neg ha, List.append_eq]
    rw [ih (fun b hb => h b (List.mem_cons_of_mem a hb))]
    rfl

-- ----------------------------------------------------------------
-- Helper lemmas: decimal representation
-- ----------------------------------------------------------------

theorem natDigitsF_ne_nil (f n : Nat) : natDigitsF f n ≠ [] := by
  cases f with
  | zero => simp [natDigitsF]
  | succ f =>
    simp only [natDigitsF]
    by_cases h : n < 10
    · simp [h]
    · simp [h]

theorem natDigitsF_all_dig {f n : Nat} (h : n < 10 ^ f) :
    ∀ c ∈ natDigitsF f n, isDig c = true := by
  induction f generalizing n with
  | zero =>
    have : n = 0 := by simpa using h
    subst this
    intro c hc
    simp only [natDigitsF, List.mem_singleton] at hc
    subst hc
    exact isDig_digChar (by norm_num)
  | succ f ih =>
    intro c hc
    simp only [natDigitsF] at hc
    by_cases hn : n < 10
    · rw [if_pos hn] at hc
      simp only [List.mem_singleton] at hc
      subst hc
      exact isDig_digChar hn
    · rw [if_neg hn] at hc
      rcases List.mem_append.mp hc with h1 | h1
      · have hlt : n / 10 < 10 ^ f := by
          rw [Nat.div_lt_iff_lt_mul (by norm_num)]
          calc n < 10 ^ (f + 1) := h
          _ = 10 ^ f * 10 := by rw [pow_succ]
        exact ih hlt c h1
      · simp only [List.mem_singleton] at h1
        subst h1
        exact isDig_digChar (Nat.mod_lt n (by norm_num))

theorem natDigitsF_foldl {f n : Nat} (h : n < 10 ^ f) (a : Nat) :
    List.foldl (fun a c => a * 10 + digVal c) a (natDigitsF f n)
      = a * 10 ^ (natDigitsF f n).length + n := by
  induction f generalizing n a with
  | zero =>
    have : n = 0 := by simpa using h
    subst this
    simp [natDigitsF, digVal_digChar (by norm_num : (0:Nat) < 10)]
  | succ f ih =>
    by_cases hn : n < 10
    · simp [natDigitsF, if_pos hn, digVal_digChar hn]
    · have hlt : n / 10 < 10 ^ f := by
        rw [Nat.div_lt_iff_lt_mul (by norm_num)]
        calc n < 10 ^ (f + 1) := h
        _ = 10 ^ f * 10 := by rw [pow_succ]
      simp only [natDigitsF, if_neg hn, List.foldl_append, List.foldl_cons, List.foldl_nil,
        List.length_append, List.length_singleton]
      rw [ih hlt a, digVal_digChar (Nat.mod_lt n (by norm_num))]
      rw [pow_succ]
      have := Nat.div_add_mod n 10
      ring_nf
      omega

theorem natDigitsF_len_le {f n m : Nat} (hm : 1 ≤ m) (h : n < 10 ^ m) :
    (natDigitsF f n).length ≤ m := by
  induction f generalizing n m with
  | zero => simpa [natDigitsF] using hm
  | succ f ih =>
    by_cases hn : n < 10
    · simp only [natDigitsF, if_pos hn, List.length_singleton]
      exact hm
    · have hm2 : 2 ≤ m := by
        by_contra hc
        have : m = 1 := by omega
        subst this
        simp at h
        omega
      have hlt : n / 10 < 10 ^ (m - 1) := by
        rw [Nat.div_lt_iff_lt_mul (by norm_num)]
        calc n < 10 ^ m := h
        _ = 10 ^ (m - 1) * 10 := by
            conv_lhs => rw [show m = (m - 1) + 1 by omega]
            rw [pow_succ]
      have := ih (by omega : 1 ≤ m - 1) hlt
      simp only [natDigitsF, if_neg hn, List.length_append, List.length_singleton]
      omega

theorem strVal_natDigits {n : Nat} (h : n < 10 ^ 64) : strVal (natDigits n) = n := by
  simp only [strVal, natDigits]
  rw [natDigitsF_foldl h 0]
  simp

theorem natDigits_ne_nil (n : Nat) : natDigits n ≠ [] := natDigitsF_ne_nil 64 n

theorem foldl_replicate_zero (k : Nat) :
    List.foldl (fun a c => a * 10 + digVal c) 0 (List.replicate k '0') = 0 := by
  induction k with
  | zero => rfl
  | succ k ih =>
    simp only [List.replicate_succ, List.foldl_cons]
    simpa [digVal] using ih

theorem strVal_pad3 {n : Nat} (h : n < 10 ^ 64) : strVal (pad3 n) = n := by
  simp only [pad3, strVal, List.foldl_append, foldl_replicate_zero]
  exact strVal_natDigits h

theorem pad3_all_dig {n : Nat} (h : n < 10 ^ 64) : ∀ c ∈ pad3 n, isDig c = true := by
  intro c hc
  rcases List.mem_append.mp hc with h1 | h1
  · rw [List.eq_of_mem_replicate h1]
    decide
  · exact natDigitsF_all_dig h c h1

theorem pad3_len {n : Nat} (h : n < 1000) : (pad3 n).length = 3 := by
  have hle : (natDigits n).length ≤ 3 :=
    natDigitsF_len_le (by norm_num) (by norm_num; omega)
  simp only [pad3, List.length_append, List.length_replicate]
  omega

theorem pad3_ne_nil (n : Nat) : pad3 n ≠ [] := by
  simp only [pad3]
  intro h
  exact natDigits_ne_nil n (List.append_eq_nil.mp h).2

theorem parseDigits_of_digits {s : Str} (hne : s ≠ []) (hd : ∀ c ∈ s, isDig c = true) :
    parseDigits s = some (strVal s) := by
  simp only [parseDigits, if_neg hne]
  rw [if_pos (List.all_eq_true.mpr hd)]

theorem stripPlus_of_digits {s : Str} (hd : ∀ c ∈ s, isDig c = true) :
    stripPlus s = s := by
  cases s with
  | nil => rfl
  | cons c r =>
    simp only [stripPlus]
    rw [if_neg (isDig_ne_plus (hd c (List.mem_cons_self c r)))]

theorem parseU16_of_digits {s : Str} (hne : s ≠ []) (hd : ∀ c ∈ s, isDig c = true)
    (hb : strVal s ≤ 65535) : parseU16 s = some (strVal s) := by
  simp only [parseU16, stripPlus_of_digits hd, parseDigits_of_digits hne hd]
  rw [if_pos hb]

theorem parseU16_pad3 {n : Nat} (h : n ≤ 999) : parseU16 (pad3 n) = some n := by
  have h64 : n < 10 ^ 64 := by norm_num; omega
  rw [parseU16_of_digits (pad3_ne_nil n) (pad3_all_dig h64)
    (by rw [strVal_pad3 h64]; omega), strVal_pad3 h64]

theorem parseUsize_natDigits {n : Nat} (h : n < 2 ^ 64) :
    parseUsize (natDigits n) = some n := by
  have h64 : n < 10 ^ 64 := by
    calc n < 2 ^ 64 := h
    _ ≤ 10 ^ 64 := Nat.pow_le_pow_left (by norm_num) 64
  have hd : ∀ c ∈ natDigits n, isDig c = true := natDigitsF_all_dig h64
  simp only [parseUsize, stripPlus_of_digits hd,
    parseDigits_of_digits (natDigits_ne_nil n) hd, strVal_natDigits h64]
  rw [if_pos (by norm_num at h ⊢; omega)]

-- ----------------------------------------------------------------
-- Helper lemmas: sequential names
-- ----------------------------------------------------------------

theorem take_len_append (xs ys : Str) : (xs ++ ys).take xs.length = xs := by
  induction xs with
  | nil => rfl
  | cons a as ih => simp [ih]

theorem stripLen_eq : stripLen = 7 := rfl

/-- No character of `pad3 n ++ '.' :: DEFAULT_MAP_TYPE` is an underscore. -/
theorem no_us_in_tail {n : Nat} (h : n < 10 ^ 64) :
    ∀ a ∈ pad3 n ++ '.' :: DEFAULT_MAP_TYPE, a ≠ '_' := by
  intro a ha
  rcases List.mem_append.mp ha with h1 | h1
  · exact isDig_ne_us (pad3_all_dig h a h1)
  · exact (by decide : ∀ a ∈ '.' :: DEFAULT_MAP_TYPE, a ≠ '_') a h1

theorem no_dot_in_pad3 {n : Nat} (h : n < 10 ^ 64) : ∀ a ∈ pad3 n, a ≠ '.' := by
  intro a ha
  exact isDig_ne_dot (pad3_all_dig h a ha)

/-- The counter the scanning loop parses out of an expanded sequential name:
for a base name ending in the naming character it recovers the counter. -/
theorem seqCntOf_expand (P : Str) {i : Nat} (hi : i ≤ 999) :
    seqCntOf (get_sequential_name_from_count (P ++ ['_']) i) = some i := by
  have h64 : i < 10 ^ 64 := by norm_num; omega
  have hform : get_sequential_name_from_count (P ++ ['_']) i
      = P ++ '_' :: (pad3 i ++ '.' :: DEFAULT_MAP_TYPE) := by
    simp [get_sequential_name_from_count]
  rw [seqCntOf, hform, lastOr_split_append,
    splitOnChar_no_mem (no_us_in_tail h64),
    show lastOr [pad3 i ++ '.' :: DEFAULT_MAP_TYPE] [] = pad3 i ++ '.' :: DEFAULT_MAP_TYPE
      from rfl,
    splitOnChar_append DEFAULT_MAP_TYPE (no_dot_in_pad3 h64)]
  simp only [List.headD_cons]
  exact parseU16_pad3 hi

theorem expand_length {B : Str} {i : Nat} (hi : i ≤ 999) :
    (get_sequential_name_from_count B i).length = B.length + 7 := by
  simp [get_sequential_name_from_count, pad3_len (by omega : i < 1000), DEFAULT_MAP_TYPE]

theorem expand_take {B : Str} {i : Nat} (hi : i ≤ 999) :
    (get_sequential_name_from_count B i).take
      ((get_sequential_name_from_count B i).length - stripLen) = B := by
  rw [expand_length hi, stripLen_eq]
  have h1 : B.length + 7 - 7 = B.length := by omega
  rw [h1]
  simp only [get_sequential_name_from_count]
  rw [List.append_assoc]
  exact take_len_append B (pad3 i ++ '.' :: DEFAULT_MAP_TYPE)

/-- The files `B_000.map … B_k.map` for base `B`. -/
def seqFiles (B : Str) (k : Nat) : List Str :=
  (List.range (k + 1)).map (fun i => get_sequential_name_from_count B i)

theorem seqFiles_scan (P : Str) {k : Nat} (hk : k ≤ 999) :
    (seqFiles (P ++ ['_']) k).foldl scanStep (false, 0) = (true, k) := by
  induction k with
  | zero =>
    have h0 : seqFiles (P ++ ['_']) 0 = [get_sequential_name_from_count (P ++ ['_']) 0] := by
      simp [seqFiles, List.range_succ]
    rw [h0]
    simp only [List.foldl_cons, List.foldl_nil, scanStep,
      seqCntOf_expand P (by omega : (0 : Nat) ≤ 999)]
    norm_num
  | succ k ih =>
    have hk' : k ≤ 999 := by omega
    have hsplit : seqFiles (P ++ ['_']) (k + 1)
        = seqFiles (P ++ ['_']) k ++ [get_sequential_name_from_count (P ++ ['_']) (k + 1)] := by
      simp [seqFiles, List.range_succ]
    rw [hsplit, List.foldl_append, ih hk']
    simp only [List.foldl_cons, List.foldl_nil, scanStep, seqCntOf_expand P hk]
    rw [if_pos (by omega : k < k + 1)]

theorem seqFiles_mem {B : Str} {k : Nat} {x : Str} (h : x ∈ seqFiles B k) :
    ∃ i ≤ k, x = get_sequential_name_from_count B i := by
  simp only [seqFiles, List.mem_map, List.mem_range] at h
  rcases h with ⟨i, hi, hx⟩
  exact ⟨i, by omega, hx.symm⟩

theorem matchScan_seq (P : Str) {k : Nat} (hk : k ≤ 999) (others : List Str)
    (ho : ∀ o ∈ others, o.take (o.length - stripLen) ≠ P ++ ['_']) :
    matchScan (seqFiles (P ++ ['_']) k ++ others) (P ++ ['_']) = (true, k) := by
  have hfil : (seqFiles (P ++ ['_']) k ++ others).filter
      (fun e => decide (e.take (e.length - stripLen) = P ++ ['_']))
      = seqFiles (P ++ ['_']) k := by
    rw [List.filter_append]
    have h1 : (seqFiles (P ++ ['_']) k).filter
        (fun e => decide (e.take (e.length - stripLen) = P ++ ['_']))
        = seqFiles (P ++ ['_']) k := by
      rw [List.filter_eq_self]
      intro a ha
      rcases seqFiles_mem ha with ⟨i, hi, hx⟩
      subst hx
      simp [expand_take (by omega : i ≤ 999)]
    have h2 : others.filter
        (fun e => decide (e.take (e.length - stripLen) = P ++ ['_'])) = [] := by
      rw [List.filter_eq_nil]
      intro a ha
      simp [ho a ha]
    rw [h1, h2, List.append_nil]
  rw [matchScan, hfil]
  exact seqFiles_scan P hk

theorem matchScan_no_match (base : Str) (others : List Str)
    (ho : ∀ o ∈ others, o.take (o.length - stripLen) ≠ base) :
    matchScan others base = (false, 0) := by
  have h2 : others.filter (fun e => decide (e.take (e.length - stripLen) = base)) = [] := by
    rw [List.filter_eq_nil]
    intro a ha
    simp [ho a ha]
  rw [matchScan, h2]
  rfl

-- ----------------------------------------------------------------
-- Claim C1
-- ----------------------------------------------------------------

/-- Claim C1, counterexample: the claim asks only that the directory's files
INCLUDE the run `B_000.map … B_k.map`.  A directory holding `B_000.map` and
`B_005.map` includes the run for `k = 0`, so the claim demands that `next`
return counter `1`; the code scans every file matching the base and returns
counter `6`. -/
theorem claim_C1_cex :
    get_sequential_name
        [get_sequential_name_from_count ['B', '_'] 0,
         get_sequential_name_from_count ['B', '_'] 5] ['B', '_'] true
      = some (FmRes.ok (get_sequential_name_from_count ['B', '_'] 6)) ∧
    get_sequential_name_from_count ['B', '_'] 6
      ≠ get_sequential_name_from_count ['B', '_'] 1 := by
  constructor
  · decide
  · decide

/-- Claim C1, amended: if the eligible files matching base `B` are exactly
`B_000.map … B_k.map` (plus arbitrary non-matching files of at least
`stripLen` characters), then `next` returns counter `k + 1` provided that does
not exceed the maximum, `last` returns counter `k`, and with no matching file
both modes return counter `0`. -/
theorem claim_C1_amended (P : Str) (k : Nat) (others : List Str)
    (ho : ∀ o ∈ others, stripLen ≤ o.length ∧ o.take (o.length - stripLen) ≠ P ++ ['_']) :
    (k ≤ 998 →
      get_sequential_name (seqFiles (P ++ ['_']) k ++ others) (P ++ ['_']) true
        = some (FmRes.ok (get_sequential_name_from_count (P ++ ['_']) (k + 1)))) ∧
    (k ≤ 999 →
      get_sequential_name (seqFiles (P ++ ['_']) k ++ others) (P ++ ['_']) false
        = some (FmRes.ok (get_sequential_name_from_count (P ++ ['_']) k))) ∧
    get_sequential_name others (P ++ ['_']) true
      = some (FmRes.ok (get_sequential_name_from_count (P ++ ['_']) 0)) ∧
    get_sequential_name others (P ++ ['_']) false
      = some (FmRes.ok (get_sequential_name_from_count (P ++ ['_']) 0)) := by
  have hno : ¬ ∃ e ∈ others, e.length < stripLen := by
    rintro ⟨e, he, hl⟩
    have := (ho e he).1
    omega
  have hcomb : ∀ {k' : Nat}, k' ≤ 999 →
      ¬ ∃ e ∈ seqFiles (P ++ ['_']) k' ++ others, e.length < stripLen := by
    intro k' hk'
    rintro ⟨e, he, hl⟩
    rcases List.mem_append.mp he with h1 | h1
    · rcases seqFiles_mem h1 with ⟨i, hi, hx⟩
      subst hx
      rw [expand_length (by omega), stripLen_eq] at hl
      omega
    · have := (ho e h1).1
      omega
  refine ⟨?_, ?_, ?_, ?_⟩
  · intro hk
    simp only [get_sequential_name]
    rw [if_neg (hcomb (by omega))]
    rw [matchScan_seq P (by omega) others (fun o hoo => (ho o hoo).2)]
    simp only [Bool.and_true, if_true, ite_true, SEQUENTIAL_FILE_MAX_NUMBER]
    rw [Nat.mod_eq_of_lt (by omega : k + 1 < 65536)]
    rw [if_pos (by omega : k + 1 ≤ 999)]
  · intro hk
    simp only [get_sequential_name]
    rw [if_neg (hcomb hk)]
    rw [matchScan_seq P hk others (fun o hoo => (ho o hoo).2)]
    simp only [Bool.false_and, Bool.false_eq_true, if_false, ite_false,
      SEQUENTIAL_FILE_MAX_NUMBER]
    rw [if_pos (by omega : k ≤ 999)]
  · simp only [get_sequential_name]
    rw [if_neg hno]
    rw [matchScan_no_match (P ++ ['_']) others (fun o hoo => (ho o hoo).2)]
    simp [SEQUENTIAL_FILE_MAX_NUMBER]
  · simp only [get_sequential_name]
    rw [if_neg hno]
    rw [matchScan_no_match (P ++ ['_']) others (fun o hoo => (ho o hoo).2)]
    simp [SEQUENTIAL_FILE_MAX_NUMBER]

/-- Claim C1, witness: with exactly `run_000.map` and `run_001.map` present,
`next` yields `run_002.map`. -/
theorem claim_C1_witness :
    get_sequential_name (seqFiles (['r', 'u', 'n'] ++ ['_']) 1 ++ [])
        (['r', 'u', 'n'] ++ ['_']) true
      = some (FmRes.ok (get_sequential_name_from_count (['r', 'u', 'n'] ++ ['_']) 2)) :=
  (claim_C1_amended ['r', 'u', 'n'] 1 [] (by simp)).1 (by norm_num)

-- ----------------------------------------------------------------
-- Claim C2
-- ----------------------------------------------------------------

/-- Claim C2: the spec requires the suffix-strip arithmetic to be
bounds-checked so that a short eligible name is treated as "not a sequential
name".  The code is not bounds-checked: with the five-character eligible file
`a.map` in the listing, `get_sequential_name`'s filter computes
`entry.len() - 7` on `usize`, which underflows and the slice panics
(modelled by `none`). -/
theorem claim_C2_thm :
    get_sequential_name [['a', '.', 'm', 'a', 'p']] ['a', '_'] true = none := by
  decide

-- ----------------------------------------------------------------
-- Claim C5
-- ----------------------------------------------------------------

/-- Claim C5, counterexample: the claim's "fails exactly when the resulting
counter would exceed the maximum" breaks at a scanned maximum of 65535: the
eligible file `a_65535.map` matches base `a_65` and parses counter 65535, the
`u16` increment wraps to 0, and `next` returns the name with counter 0
(`a_65000.map`) instead of failing with the sequential-overflow error, even
though a mathematically resulting counter of 65536 exceeds 999. -/
theorem claim_C5_cex :
    get_sequential_name [['a', '_', '6', '5', '5', '3', '5', '.', 'm', 'a', 'p']]
        ['a', '_', '6', '5'] true
      = some (FmRes.ok (get_sequential_name_from_count ['a', '_', '6', '5'] 0)) ∧
    get_sequential_name [['a', '_', '6', '5', '5', '3', '5', '.', 'm', 'a', 'p']]
        ['a', '_', '6', '5'] true
      ≠ some (FmRes.error FmError.InvalidSequentialName) := by
  constructor
  · decide
  · decide

/-- Claim C5, amended: on a listing with no panic-inducing short entry, `next`
mode fails with the sequential-overflow error exactly when the resulting
counter — the scanned maximum incremented on `u16`, wrapping modulo 2^16 —
exceeds the configured maximum; in particular a maximum existing counter of
`999` fails and a maximum of `998` succeeds (returning the name with counter
`999`). -/
theorem claim_C5_amended (files : List Str) (base : Str)
    (hs : ¬ ∃ e ∈ files, e.length < stripLen) :
    (get_sequential_name files base true = some (FmRes.error FmError.InvalidSequentialName)
      ↔ SEQUENTIAL_FILE_MAX_NUMBER <
          (if (matchScan files base).1 then ((matchScan files base).2 + 1) % 65536
           else (matchScan files base).2)) ∧
    (matchScan files base = (true, 999) →
      get_sequential_name files base true
        = some (FmRes.error FmError.InvalidSequentialName)) ∧
    (matchScan files base = (true, 998) →
      get_sequential_name files base true
        = some (FmRes.ok (get_sequential_name_from_count base 999))) := by
  refine ⟨?_, ?_, ?_⟩
  · simp only [get_sequential_name]
    rw [if_neg hs]
    simp only [Bool.true_and]
    by_cases hfc : (matchScan files base).1
    · rw [if_pos hfc]
      by_cases hb : ((matchScan files base).2 + 1) % 65536 ≤ SEQUENTIAL_FILE_MAX_NUMBER
      · rw [if_pos hb]
        constructor
        · intro h
          cases h
        · intro h
          simp only [SEQUENTIAL_FILE_MAX_NUMBER] at hb h
          omega
      · rw [if_neg hb]
        constructor
        · intro _
          simp only [SEQUENTIAL_FILE_MAX_NUMBER] at hb ⊢
          omega
        · intro _
          rfl
    · simp only [Bool.not_eq_true] at hfc
      rw [hfc]
      simp only [Bool.false_eq_true, if_false]
      by_cases hb : (matchScan files base).2 ≤ SEQUENTIAL_FILE_MAX_NUMBER
      · rw [if_pos hb]
        constructor
        · intro h
          cases h
        · intro h
          omega
      · rw [if_neg hb]
        exact ⟨fun _ => by omega, fun _ => rfl⟩
  · intro h
    simp only [get_sequential_name]
    rw [if_neg hs, h]
    simp [SEQUENTIAL_FILE_MAX_NUMBER]
  · intro h
    simp only [get_sequential_name]
    rw [if_neg hs, h]
    simp [SEQUENTIAL_FILE_MAX_NUMBER]

/-- Claim C5, witness: with `B_999.map` present `next` overflows; with
`B_998.map` present it returns `B_999.map`. -/
theorem claim_C5_witness :
    get_sequential_name [['B', '_', '9', '9', '9', '.', 'm', 'a', 'p']] ['B', '_'] true
      = some (FmRes.error FmError.InvalidSequentialName) ∧
    get_sequential_name [['B', '_', '9', '9', '8', '.', 'm', 'a', 'p']] ['B', '_'] true
      = some (FmRes.ok (get_sequential_name_from_count ['B', '_'] 999)) := by
  constructor
  · exact (claim_C5_amended [['B', '_', '9', '9', '9', '.', 'm', 'a', 'p']] ['B', '_']
      (by decide)).2.1 (by decide)
  · exact (claim_C5_amended [['B', '_', '9', '9', '8', '.', 'm', 'a', 'p']] ['B', '_']
      (by decide)).2.2 (by decide)

-- ----------------------------------------------------------------
-- Claims C3 and C4: the collapse direction
-- ----------------------------------------------------------------

theorem foldl_val_bound {s : Str} (hd : ∀ c ∈ s, isDig c = true) (a : Nat) :
    List.foldl (fun a c => a * 10 + digVal c) a s < (a + 1) * 10 ^ s.length := by
  induction s generalizing a with
  | nil => simp
  | cons c cs ih =>
    have hc := digVal_le c (hd c (List.mem_cons_self c cs))
    have h1 := ih (fun x hx => hd x (List.mem_cons_of_mem c hx)) (a * 10 + digVal c)
    simp only [List.foldl_cons, List.length_cons]
    calc List.foldl (fun a c => a * 10 + digVal c) (a * 10 + digVal c) cs
        < (a * 10 + digVal c + 1) * 10 ^ cs.length := h1
    _ ≤ ((a + 1) * 10) * 10 ^ cs.length :=
        Nat.mul_le_mul_right _ (by omega)
    _ = (a + 1) * 10 ^ (cs.length + 1) := by ring

theorem strVal_lt_pow {s : Str} (hd : ∀ c ∈ s, isDig c = true) :
    strVal s < 10 ^ s.length := by
  have := foldl_val_bound hd 0
  simpa [strVal] using this

/-- Shared kernel of the collapse claims: when the stem ends in the naming
character followed by exactly three digits and the extension part is the
three-character configured one, `is_sequential_name` strips the digits, the
dot and the extension and keeps the naming character. -/
theorem collapse_strips_digits (P d : Str) (hd : ∀ c ∈ d, isDig c = true)
    (hlen : d.length = 3) (hP : ∀ a ∈ P, a ≠ '.') :
    is_sequential_name ((P ++ '_' :: d) ++ '.' :: DEFAULT_MAP_TYPE) = some (P ++ ['_']) := by
  have hdne : d ≠ [] := by
    intro h0
    rw [h0] at hlen
    simp at hlen
  have hstem : ∀ a ∈ P ++ '_' :: d, a ≠ '.' := by
    intro a ha
    rcases List.mem_append.mp ha with h1 | h1
    · exact hP a h1
    · rcases List.mem_cons.mp h1 with h2 | h2
      · subst h2; decide
      · exact isDig_ne_dot (hd a h2)
  have hsplit : splitOnce '.' ((P ++ '_' :: d) ++ '.' :: DEFAULT_MAP_TYPE)
      = some (P ++ '_' :: d, DEFAULT_MAP_TYPE) := splitOnce_append DEFAULT_MAP_TYPE hstem
  have hlast : lastOr (splitOnChar '_' (P ++ '_' :: d)) [] = d := by
    rw [lastOr_split_append, splitOnChar_no_mem (fun a ha => isDig_ne_us (hd a ha))]
    rfl
  have hvb : strVal d ≤ 65535 := by
    have := strVal_lt_pow hd
    rw [hlen] at this
    norm_num at this
    omega
  have hps : (parseU16 d).isSome = true := by
    rw [parseU16_of_digits hdne hd hvb]
    rfl
  have hlentot : ((P ++ '_' :: d) ++ '.' :: DEFAULT_MAP_TYPE).length = P.length + 8 := by
    simp [List.length_append, hlen, DEFAULT_MAP_TYPE]
  simp only [is_sequential_name, hsplit, Option.getD_some, hlast]
  rw [if_pos ⟨by rw [hlen]; rfl, hps⟩]
  rw [if_neg (by rw [hlentot, stripLen_eq]; omega)]
  rw [hlentot, stripLen_eq]
  have h8 : P.length + 8 - 7 = P.length + 1 := by omega
  rw [h8]
  have hform2 : (P ++ '_' :: d) ++ '.' :: DEFAULT_MAP_TYPE
      = (P ++ ['_']) ++ (d ++ '.' :: DEFAULT_MAP_TYPE) := by simp
  rw [hform2]
  have hlp : P.length + 1 = (P ++ ['_']).length := by simp
  rw [hlp, take_len_append]

/-- Claim C3, counterexample: `collapse("run_000.map")` returns `"run_"`, the
base name with the separator retained, not the claimed `"run"` with both the
numeric suffix and the separator stripped. -/
theorem claim_C3_cex :
    is_sequential_name ['r', 'u', 'n', '_', '0', '0', '0', '.', 'm', 'a', 'p']
      ≠ some ['r', 'u', 'n'] ∧
    is_sequential_name ['r', 'u', 'n', '_', '0', '0', '0', '.', 'm', 'a', 'p']
      = some ['r', 'u', 'n', '_'] := by
  constructor
  · decide
  · decide

/-- Claim C3, amended: if the portion before the FIRST dot ends in the
separator followed by exactly `padding_width` digits and the extension part is
the configured three-character one, collapse strips the digits, the dot and
the extension but RETAINS the separator; and whenever the final `_`-segment of
the portion before the first dot is not exactly `padding_width` characters
parsing as a `u16`, collapse returns its input unchanged. -/
theorem claim_C3_amended :
    (∀ P d : Str, (∀ c ∈ d, isDig c = true) → d.length = 3 → (∀ a ∈ P, a ≠ '.') →
      is_sequential_name ((P ++ '_' :: d) ++ '.' :: DEFAULT_MAP_TYPE) = some (P ++ ['_'])) ∧
    (∀ s : Str,
      ¬((lastOr (splitOnChar '_' ((splitOnce '.' s).getD ([], [])).1) []).length
            = SEQUENTIAL_FILE_PADDING_LEN
        ∧ (parseU16 (lastOr (splitOnChar '_' ((splitOnce '.' s).getD ([], [])).1) [])).isSome
            = true) →
      is_sequential_name s = some s) := by
  constructor
  · intro P d hd hlen hP
    exact collapse_strips_digits P d hd hlen hP
  · intro s hcond
    simp only [is_sequential_name]
    rw [if_neg hcond]

/-- Claim C3, witness: `collapse("run_000.map") = "run_"`, and a name whose
stem does not end in three digits is returned unchanged. -/
theorem claim_C3_witness :
    is_sequential_name ((['r', 'u', 'n'] ++ '_' :: ['0', '0', '0']) ++ '.' :: DEFAULT_MAP_TYPE)
      = some (['r', 'u', 'n'] ++ ['_']) ∧
    is_sequential_name ['n', 'o', 't', 'e', 's', '.', 'm', 'a', 'p']
      = some ['n', 'o', 't', 'e', 's', '.', 'm', 'a', 'p'] :=
  ⟨claim_C3_amended.1 ['r', 'u', 'n'] ['0', '0', '0'] (by decide) (by decide) (by decide),
   claim_C3_amended.2 ['n', 'o', 't', 'e', 's', '.', 'm', 'a', 'p'] (by decide)⟩

-- ----------------------------------------------------------------
-- Claim C4
-- ----------------------------------------------------------------

/-- Claim C4, counterexample: the base name `a._` ends in the separator, but
round-tripping fails because the collapse side splits at the FIRST dot:
`collapse(expand("a._", 0)) = "a._000.map"`, not `"a._"`. -/
theorem claim_C4_cex :
    is_sequential_name (get_sequential_name_from_count ['a', '.', '_'] 0)
      ≠ some ['a', '.', '_'] ∧
    is_sequential_name (get_sequential_name_from_count ['a', '.', '_'] 0)
      = some ['a', '.', '_', '0', '0', '0', '.', 'm', 'a', 'p'] := by
  constructor
  · decide
  · decide

/-- Claim C4, amended: for every base name ending in the separator and
containing no dot, and every counter `k` up to the configured maximum,
`collapse(expand(B, k))` recovers `B` exactly. -/
theorem claim_C4_amended (P : Str) (k : Nat) (hP : ∀ a ∈ P, a ≠ '.') (hk : k ≤ 999) :
    is_sequential_name (get_sequential_name_from_count (P ++ ['_']) k)
      = some (P ++ ['_']) := by
  have h64 : k < 10 ^ 64 := by norm_num; omega
  have hform : get_sequential_name_from_count (P ++ ['_']) k
      = (P ++ '_' :: pad3 k) ++ '.' :: DEFAULT_MAP_TYPE := by
    simp [get_sequential_name_from_count]
  rw [hform]
  exact collapse_strips_digits P (pad3 k) (pad3_all_dig h64) (pad3_len (by omega)) hP

/-- Claim C4, witness: `collapse(expand("run_", 7)) = "run_"`. -/
theorem claim_C4_witness :
    is_sequential_name (get_sequential_name_from_count (['r', 'u', 'n'] ++ ['_']) 7)
      = some (['r', 'u', 'n'] ++ ['_']) :=
  claim_C4_amended ['r', 'u', 'n'] 7 (by decide) (by norm_num)

-- ----------------------------------------------------------------
-- Claim C6
-- ----------------------------------------------------------------

/-- Claim C6, counterexample: a default directory stored without a trailing
slash is not returned "exactly": selecting index 0 over defaults `["a"]`
yields `"a/"`, the entry with a separator appended. -/
theorem claim_C6_cex :
    parse_menu_file [] (natDigits 0) [['a']] [] [] ≠ some (some ['a'], none) ∧
    parse_menu_file [] (natDigits 0) [['a']] [] [] = some (some ['a', '/'], none) := by
  constructor
  · decide
  · decide

/-- Claim C6, amended: for every candidate triple and every index `n`
representable as `usize` given as its decimal numeral, the combined index
space is contiguous of size `|defaults| + |subdirs| + |files|`: the first
range selects the corresponding default directory normalized to end in the
separator `/`; the second selects the corresponding sub-directory appended to
the current directory; the third selects the corresponding file passed
through collapse; any `n` at or beyond the total yields no selection (both
outputs `none`) with an out-of-range notice.  (A numeral not representable as
`usize` fails integer parsing and is classified as text instead.) -/
theorem claim_C6_amended (cp : Str) (dirs subs files : List Str) (n : Nat)
    (hn : n < 2 ^ 64) :
    (n < dirs.length →
      parse_menu_file cp (natDigits n) dirs subs files
        = some (some (ensureSlash (dirs.getD n [])), none)) ∧
    (dirs.length ≤ n → n - dirs.length < subs.length →
      parse_menu_file cp (natDigits n) dirs subs files
        = some (some (cp ++ subs.getD (n - dirs.length) []), none)) ∧
    (dirs.length + subs.length ≤ n → n - dirs.length - subs.length < files.length →
      parse_menu_file cp (natDigits n) dirs subs files
        = Option.map (fun f => (none, some f))
            (is_sequential_name (files.getD (n - dirs.length - subs.length) []))) ∧
    (dirs.length + subs.length + files.length ≤ n →
      parse_menu_file cp (natDigits n) dirs subs files = some (none, none)) := by
  have hne : natDigits n ≠ [] := natDigits_ne_nil n
  have hp : parseUsize (natDigits n) = some n := parseUsize_natDigits hn
  refine ⟨?_, ?_, ?_, ?_⟩
  · intro h1
    simp only [parse_menu_file, if_neg hne, hp]
    rw [if_pos h1]
  · intro h1 h2
    simp only [parse_menu_file, if_neg hne, hp]
    rw [if_neg (by omega : ¬ n < dirs.length), if_pos h2]
  · intro h1 h2
    simp only [parse_menu_file, if_neg hne, hp]
    rw [if_neg (by omega : ¬ n < dirs.length),
      if_neg (by omega : ¬ n - dirs.length < subs.length), if_pos h2]
    cases is_sequential_name (files.getD (n - dirs.length - subs.length) []) <;> rfl
  · intro h1
    simp only [parse_menu_file, if_neg hne, hp]
    rw [if_neg (by omega : ¬ n < dirs.length),
      if_neg (by omega : ¬ n - dirs.length < subs.length),
      if_neg (by omega : ¬ n - dirs.length - subs.length < files.length)]

/-- Claim C6, witness: over defaults `["a/"]`, sub-directories `["s/"]` and
files `["f.map"]`, the numerals 0, 1, 2 select the default directory, the
resolved sub-directory and the collapsed file, and 3 is out of range. -/
theorem claim_C6_witness :
    parse_menu_file ['c', '/'] (natDigits 0) [['a', '/']] [['s', '/']]
        [['f', '.', 'm', 'a', 'p']] = some (some ['a', '/'], none) ∧
    parse_menu_file ['c', '/'] (natDigits 1) [['a', '/']] [['s', '/']]
        [['f', '.', 'm', 'a', 'p']] = some (some ['c', '/', 's', '/'], none) ∧
    parse_menu_file ['c', '/'] (natDigits 2) [['a', '/']] [['s', '/']]
        [['f', '.', 'm', 'a', 'p']] = some (none, some ['f', '.', 'm', 'a', 'p']) ∧
    parse_menu_file ['c', '/'] (natDigits 3) [['a', '/']] [['s', '/']]
        [['f', '.', 'm', 'a', 'p']] = some (none, none) := by
  refine ⟨?_, ?_, ?_, ?_⟩
  · have h := (claim_C6_amended ['c', '/'] [['a', '/']] [['s', '/']]
      [['f', '.', 'm', 'a', 'p']] 0 (by norm_num)).1 (by norm_num)
    rw [h]
    decide
  · have h := (claim_C6_amended ['c', '/'] [['a', '/']] [['s', '/']]
      [['f', '.', 'm', 'a', 'p']] 1 (by norm_num)).2.1 (by norm_num) (by norm_num)
    rw [h]
    decide
  · have h := (claim_C6_amended ['c', '/'] [['a', '/']] [['s', '/']]
      [['f', '.', 'm', 'a', 'p']] 2 (by norm_num)).2.2.1 (by norm_num) (by norm_num)
    rw [h]
    decide
  · exact (claim_C6_amended ['c', '/'] [['a', '/']] [['s', '/']]
      [['f', '.', 'm', 'a', 'p']] 3 (by norm_num)).2.2.2 (by norm_num)

-- ----------------------------------------------------------------
-- Claim C7
-- ----------------------------------------------------------------

/-- Claim C7: the five-option collision dialog runs exactly when the
operation is a save and the target exists (on an empty script it blocks
waiting for dialog input, modelled by `none`); loading a missing target
immediately yields the need-new-name signal without touching the script; in
the two remaining cases the requested name is returned unchanged, again
without consuming input. -/
theorem claim_C7 (path name : Str) (dirFiles : List Str) (script : List InEvent) :
    check_file_exists path name true true dirFiles [] = none ∧
    check_file_exists path name false false dirFiles script
      = some (FmRes.error FmError.NeedNewName, [], script) ∧
    check_file_exists path name true false dirFiles script
      = some (FmRes.ok name, [], script) ∧
    check_file_exists path name false true dirFiles script
      = some (FmRes.ok name, [], script) := by
  refine ⟨?_, ?_, ?_, ?_⟩ <;> simp [check_file_exists, collisionDialog]

-- ----------------------------------------------------------------
-- Claim C8
-- ----------------------------------------------------------------

/-- Claim C8, counterexample: a non-matching line is NOT treated as
need-new-name; the prompt loops and the next input decides.  Feeding `x` then
`y` yields success, where the claim demands the need-new-name signal at `x`. -/
theorem claim_C8_cex :
    Option.map Prod.fst (ask_yes_no [InEvent.line ['x'], InEvent.line ['y']])
      ≠ some (FmRes.error FmError.NeedNewName) ∧
    Option.map Prod.fst (ask_yes_no [InEvent.line ['x'], InEvent.line ['y']])
      = some (FmRes.ok ()) := by
  constructor
  · decide
  · decide

/-- Claim C8, amended: `y`/`yes` yields success, `n`/`no` yields
need-new-name, a cancel-line signal yields need-new-name, a terminate-session
signal yields manual termination, and a lower-level read fault yields
need-new-name; any other non-matching input re-prompts, leaving the outcome
to the remaining script. -/
theorem claim_C8_amended (l : Str) (rest : List InEvent) :
    (trim l = ['y'] ∨ trim l = ['y', 'e', 's'] →
      ask_yes_no (InEvent.line l :: rest) = some (FmRes.ok (), rest)) ∧
    (trim l = ['n'] ∨ trim l = ['n', 'o'] →
      ask_yes_no (InEvent.line l :: rest)
        = some (FmRes.error FmError.NeedNewName, rest)) ∧
    (¬(trim l = ['y'] ∨ trim l = ['y', 'e', 's']) →
      ¬(trim l = ['n'] ∨ trim l = ['n', 'o']) →
      ask_yes_no (InEvent.line l :: rest) = ask_yes_no rest) ∧
    ask_yes_no (InEvent.ctrlC :: rest) = some (FmRes.error FmError.NeedNewName, rest) ∧
    ask_yes_no (InEvent.ctrlD :: rest)
      = some (FmRes.error FmError.ManuallyTerminated, rest) ∧
    ask_yes_no (InEvent.fault :: rest) = some (FmRes.error FmError.NeedNewName, rest) := by
  refine ⟨?_, ?_, ?_, rfl, rfl, rfl⟩
  · intro h
    simp only [ask_yes_no]
    rw [if_pos h]
  · intro h
    have hy : ¬(trim l = ['y'] ∨ trim l = ['y', 'e', 's']) := by
      rcases h with h | h <;> rw [h] <;> decide
    simp only [ask_yes_no]
    rw [if_neg hy, if_pos h]
  · intro hy hn
    simp only [ask_yes_no]
    rw [if_neg hy, if_neg hn]

/-- Claim C8, witness: concrete instances of all outcome kinds, including a
non-matching input that merely re-prompts. -/
theorem claim_C8_witness :
    ask_yes_no [InEvent.line ['y', 'e', 's']] = some (FmRes.ok (), []) ∧
    ask_yes_no [InEvent.line ['n', 'o']] = some (FmRes.error FmError.NeedNewName, []) ∧
    ask_yes_no [InEvent.line ['x'], InEvent.ctrlD]
      = some (FmRes.error FmError.ManuallyTerminated, []) := by
  refine ⟨?_, ?_, ?_⟩
  · exact (claim_C8_amended ['y', 'e', 's'] []).1 (by decide)
  · exact (claim_C8_amended ['n', 'o'] []).2.1 (by decide)
  · rw [(claim_C8_amended ['x'] [InEvent.ctrlD]).2.2.1 (by decide) (by decide)]
    exact (claim_C8_amended [] []).2.2.2.2.1

-- ----------------------------------------------------------------
-- Claim C9
-- ----------------------------------------------------------------

/-- Claim C9: while saving in an existing directory, the input `notes` (no
extension, target not present) is accepted with the configured extension
appended, returning `current ++ "notes.map"`; the input `notes.txt` is not
accepted: the menu re-prompts (re-entering the directory loop) with the
corrected stem `notes.map` as the pre-filled seed of the next prompt. -/
theorem claim_C9 (fs : Fs) (cur : Str) (paths : List Str) (seed : Str) (rest : List InEvent)
    (hdir : check_dir_exists fs cur = true)
    (hex : fs.fileExists cur ['n', 'o', 't', 'e', 's', '.', 'm', 'a', 'p'] = false) :
    menuStep (MState.mk fs cur paths seed) true ['n', 'o', 't', 'e', 's'] rest
      = some (StepOut.ret (FmRes.ok (cur ++ ['n', 'o', 't', 'e', 's', '.', 'm', 'a', 'p'])) [],
          rest) ∧
    menuStep (MState.mk fs cur paths seed) true ['n', 'o', 't', 'e', 's', '.', 't', 'x', 't'] rest
      = some (StepOut.reprompt cur ['n', 'o', 't', 'e', 's', '.', 'm', 'a', 'p'] true [], rest) := by
  constructor
  · have hparse : parse_menu_file cur (normalizeLine ['n', 'o', 't', 'e', 's']) paths
        (fs.subdirsIn cur) (fs.filesIn cur) = some (none, some ['n', 'o', 't', 'e', 's']) := rfl
    simp only [menuStep, hparse, Option.getD_none, hdir, if_true, menuFilePart]
    rw [if_neg
      (by decide : ¬(['n', 'o', 't', 'e', 's'] : Str).getLast? = some SEQUENTIAL_NAMING_CHAR)]
    show menuNamePart (MState.mk fs cur paths seed) true
        ['n', 'o', 't', 'e', 's', '.', 'm', 'a', 'p'] [] rest = _
    simp only [menuNamePart]
    rw [if_neg (by decide :
      ¬ MAX_FILE_NAME_CHARS < (['n', 'o', 't', 'e', 's', '.', 'm', 'a', 'p'] : Str).length)]
    rw [hex]
    simp [check_file_exists]
  · have hparse : parse_menu_file cur (normalizeLine ['n', 'o', 't', 'e', 's', '.', 't', 'x', 't'])
        paths (fs.subdirsIn cur) (fs.filesIn cur)
        = some (none, some ['n', 'o', 't', 'e', 's', '.', 't', 'x', 't']) := rfl
    simp only [menuStep, hparse, Option.getD_none, hdir, if_true]
    rfl

/-- Claim C9, witness: in the concrete directory `d/` with no files and no
target collision, `notes` resolves to `d/notes.map` and `notes.txt`
re-prompts seeded with `notes.map`. -/
theorem claim_C9_witness :
    menuStep (MState.mk (Fs.mk [['d', '/']] (fun _ => []) (fun _ => []) (fun _ _ => false))
        ['d', '/'] [] []) true ['n', 'o', 't', 'e', 's'] []
      = some (StepOut.ret
          (FmRes.ok (['d', '/'] ++ ['n', 'o', 't', 'e', 's', '.', 'm', 'a', 'p'])) [], []) ∧
    menuStep (MState.mk (Fs.mk [['d', '/']] (fun _ => []) (fun _ => []) (fun _ _ => false))
        ['d', '/'] [] []) true ['n', 'o', 't', 'e', 's', '.', 't', 'x', 't'] []
      = some (StepOut.reprompt ['d', '/'] ['n', 'o', 't', 'e', 's', '.', 'm', 'a', 'p'] true [],
          []) :=
  ⟨(claim_C9 (Fs.mk [['d', '/']] (fun _ => []) (fun _ => []) (fun _ _ => false))
      ['d', '/'] [] [] [] rfl rfl).1,
   (claim_C9 (Fs.mk [['d', '/']] (fun _ => []) (fun _ => []) (fun _ _ => false))
      ['d', '/'] [] [] [] rfl rfl).2⟩

-- ----------------------------------------------------------------
-- Claim C10
-- ----------------------------------------------------------------

theorem cfe_load_acts {p n : Str} {ex : Bool} {dfl : List Str} {s : List InEvent}
    {res : FmRes Str} {acts : List FsAction} {s' : List InEvent}
    (h : check_file_exists p n false ex dfl s = some (res, acts, s')) : acts = [] := by
  cases ex <;> simp only [check_file_exists, Bool.and_false, Bool.not_false, Bool.not_true,
    Bool.and_true, Bool.false_and, Bool.true_and, Bool.false_eq_true, if_false, if_true,
    ite_false, ite_true, Option.some.injEq, Prod.mk.injEq, reduceIte] at h <;>
    exact h.2.1.symm

theorem menuNamePart_load_acts {st : MState} {f : Str} {rest : List InEvent}
    {out : StepOut} {rest' : List InEvent}
    (h : menuNamePart st false f [] rest = some (out, rest')) : stepActs out = [] := by
  simp only [menuNamePart] at h
  split at h
  · cases h
    rfl
  · split at h
    · cases h
    · rename_i heq
      cases h
      simp [stepActs, cfe_load_acts heq]
    · rename_i heq
      cases h
      simp [stepActs, cfe_load_acts heq]
    · rename_i heq
      cases h
      simp [stepActs, cfe_load_acts heq]

theorem menuFilePart_load_acts {st : MState} {f : Option Str} {rest : List InEvent}
    {out : StepOut} {rest' : List InEvent}
    (h : menuFilePart st false f [] rest = some (out, rest')) : stepActs out = [] := by
  cases f with
  | none =>
    simp only [menuFilePart] at h
    cases h
    rfl
  | some f0 =>
    simp only [menuFilePart] at h
    split at h
    · cases h
    · cases h
      rfl
    · split at h
      · split at h
        · exact menuNamePart_load_acts h
        · cases h
          rfl
      · exact menuNamePart_load_acts h

theorem menuStep_load_acts {st : MState} {l : Str} {rest : List InEvent}
    {out : StepOut} {rest' : List InEvent}
    (h : menuStep st false l rest = some (out, rest')) : stepActs out = [] := by
  simp only [menuStep] at h
  split at h
  · cases h
  · rename_i pOpt fOpt heq
    by_cases hd : check_dir_exists st.fs (pOpt.getD st.current) = true
    · rw [if_pos hd] at h
      exact menuFilePart_load_acts h
    · rw [if_neg hd] at h
      rw [if_neg (by decide : ¬ (false = true))] at h
      cases h
      rfl

/-- Claim C10: a session run in load mode performs no filesystem mutation.
Every terminating run of the menu with `is_saving = false` reports an empty
action list: the delete and rename branches of the collision dialog and the
directory-creation path are reachable only when saving. -/
theorem claim_C10 (fuel : Nat) (st : MState) (script : List InEvent)
    (r : FmRes Str) (acts : List FsAction)
    (h : runMenu false fuel st script = some (r, acts)) : acts = [] := by
  induction fuel generalizing st script r acts with
  | zero => cases h
  | succ fuel ih =>
    cases script with
    | nil => cases h
    | cons ev rest =>
      cases ev with
      | ctrlC =>
        simp only [runMenu] at h
        exact ih _ _ _ _ h
      | ctrlD =>
        simp only [runMenu] at h
        cases h
        rfl
      | fault =>
        simp only [runMenu] at h
        exact ih _ _ _ _ h
      | line l =>
        simp only [runMenu] at h
        split at h
        · cases h
        · rename_i heq
          cases h
          exact menuStep_load_acts heq
        · rename_i heq
          split at h
          · cases h
          · rename_i hrec
            cases h
            have h1 := menuStep_load_acts heq
            have h2 := ih _ _ _ _ hrec
            simp only [stepActs] at h1
            simp [h1, h2]

/-- Claim C10, witness: a load session that selects the existing file
`notes.map` in `d/` terminates successfully, and the theorem applies to it,
confirming the empty action list. -/
theorem claim_C10_witness :
    runMenu false 1 (MState.mk (Fs.mk [['d', '/']] (fun _ => []) (fun _ => [])
        (fun _ _ => true)) ['d', '/'] [] []) [InEvent.line ['n', 'o', 't', 'e', 's']]
      = some (FmRes.ok (['d', '/'] ++ ['n', 'o', 't', 'e', 's', '.', 'm', 'a', 'p']), []) ∧
    ([] : List FsAction) = [] :=
  ⟨rfl,
   claim_C10 1 (MState.mk (Fs.mk [['d', '/']] (fun _ => []) (fun _ => [])
      (fun _ _ => true)) ['d', '/'] [] []) [InEvent.line ['n', 'o', 't', 'e', 's']]
     (FmRes.ok (['d', '/'] ++ ['n', 'o', 't', 'e', 's', '.', 'm', 'a', 'p'])) [] rfl⟩
